import Mathlib

/-!
Shallow embedding of the core logic of `lexitheras.py` (Perseus vocabulary
list to Anki deck converter): the catalog cache with its time-to-live, the
exact/fuzzy text search, the URN bypass in `main`, the tabular vocabulary
extraction, and the deck builder.  Strings are Lean `String`s; Python's
substring test `needle in haystack`, `str.lower()` and `str.strip()` are
embedded as explicit functions on the character lists.  Time is modelled in
seconds as an integer, so `timedelta(days=7)` becomes `7 * 86400`.
-/

/-- Does `needle` occur at the very start of `haystack`?  This is the prefix
test underlying both Python's `in` operator on strings and `str.startswith`. -/
def headMatch : List Char → List Char → Bool
  | [], _ => true
  | c :: cs, hay =>
    match hay with
    | [] => false
    | d :: ds => c == d && headMatch cs ds

/-- Python's substring operator `needle in haystack`: `needle` occurs
contiguously somewhere in `haystack` (the empty needle always matches). -/
def subMatch (needle : List Char) : List Char → Bool
  | [] => headMatch needle []
  | b :: bs => headMatch needle (b :: bs) || subMatch needle bs

/-- String version of Python's `needle in haystack`. -/
def strIn (needle haystack : String) : Bool :=
  subMatch needle.data haystack.data

/-- String version of Python's `s.startswith(pre)`. -/
def strStartsWith (pre s : String) : Bool :=
  headMatch pre.data s.data

/-- Python's `str.lower()` (character-wise lowercasing). -/
def lowerStr (s : String) : String :=
  String.mk (s.data.map Char.toLower)

/-- Python's `str.strip()`: drop leading and trailing whitespace. -/
def pyStrip (s : String) : String :=
  String.mk (((s.data.dropWhile Char.isWhitespace).reverse.dropWhile
      Char.isWhitespace).reverse)

/-- One catalog entry, as built by `PerseusTextSearcher.get_all_texts`:
the dict with keys `author`, `title`, `urn`, `url`. -/
structure TextEntry where
  author : String
  title : String
  urn : String
  url : String
deriving DecidableEq, Repr

/-- The hardcoded `variations` alias table of `search_texts`
(`src/lexitheras.py` lines 107-116), in source order, with the source's
duplicated `xenophon` variant kept verbatim. -/
def variations : List (String × List String) :=
  [("iliad", ["iliad", "ilias"]),
   ("odyssey", ["odyssey", "odyssea"]),
   ("anabasis", ["anabasis", "anab"]),
   ("symposium", ["symposium", "symp"]),
   ("republic", ["republic", "politeia", "res publica"]),
   ("homer", ["homer", "homerus"]),
   ("plato", ["plato", "platon"]),
   ("xenophon", ["xenophon", "xenophon"])]

/-- The exact pass of `search_texts` (lines 100-102): all catalog entries
whose lowercased title or author has the lowercased query as a substring,
in catalog order. -/
def exactMatches (texts : List TextEntry) (queryLower : String) : List TextEntry :=
  texts.filter fun t =>
    strIn queryLower (lowerStr t.title) || strIn queryLower (lowerStr t.author)

/-- Does one catalog entry match the fuzzy pass for alias key `key` with
variant list `variants`?  This is the source's
`any(v in title.lower() or v in author.lower() for v in [key] + variants)`. -/
def fuzzyHit (key : String) (variants : List String) (t : TextEntry) : Bool :=
  (key :: variants).any fun v =>
    strIn v (lowerStr t.title) || strIn v (lowerStr t.author)

/-- The fuzzy pass of `search_texts` over a given alias table (lines
118-124): for each table row whose variant list contains the lowercased
query, append every catalog entry hit by that row's key or variants. -/
def fuzzyMatchesWith (tbl : List (String × List String))
    (texts : List TextEntry) (queryLower : String) : List TextEntry :=
  tbl.foldl
    (fun acc kv =>
      if kv.2.contains queryLower then acc ++ texts.filter (fuzzyHit kv.1 kv.2)
      else acc)
    []

/-- `search_texts` (lines 92-126) with the alias table as a parameter:
the exact pass, then — only when it produced nothing — the fuzzy pass. -/
def searchTextsWith (tbl : List (String × List String))
    (texts : List TextEntry) (query : String) : List TextEntry :=
  let queryLower := lowerStr query
  let found := exactMatches texts queryLower
  if found.isEmpty then fuzzyMatchesWith tbl texts queryLower else found

/-- `PerseusTextSearcher.search_texts`, with the source's hardcoded table. -/
def search_texts (texts : List TextEntry) (query : String) : List TextEntry :=
  searchTextsWith variations texts query

/-- The three resolution outcomes the caller (`main`, lines 275-288)
distinguishes on the list returned by `search_texts`. -/
inductive Resolution where
  | noMatch
  | resolved (t : TextEntry)
  | candidates (ts : List TextEntry)
deriving DecidableEq, Repr

/-- The outcome classification in `main`: zero matches abort with "no texts
found", one match is used directly, two or more are offered for selection. -/
def resolveOutcome (texts : List TextEntry) (query : String) : Resolution :=
  match search_texts texts query with
  | [] => .noMatch
  | [t] => .resolved t
  | t1 :: t2 :: rest => .candidates (t1 :: t2 :: rest)

/-- How `main` obtained the working URN: either the identifier was accepted
verbatim (`text_urn = text_identifier`, `selected_text = None`), or the
catalog was searched and classified. -/
inductive MainOutcome where
  | direct (urn : String)
  | viaSearch (r : Resolution)
deriving DecidableEq, Repr

/-- The resolution step of `main` (lines 265-273): an identifier that is
non-empty and starts with `urn:cts:greekLit:` is used verbatim with no
catalog access; anything else goes through `search_texts` on the catalog. -/
def mainResolve (identifier : String) (catalog : List TextEntry) : MainOutcome :=
  if identifier ≠ "" && strStartsWith "urn:cts:greekLit:" identifier then
    .direct identifier
  else
    .viaSearch (resolveOutcome catalog identifier)

/-- What `_load_cache` finds in the cache file, after the parsing attempts
of lines 33-35: `json.load` can fail (`invalidJson`), the object can lack
the `timestamp` or `texts` key (`wrongStructure`), `fromisoformat` can
reject the timestamp string (`badTimestamp`), or everything parses
(`wellFormed`, with the timestamp in seconds).  The bare `except` catches
every failure alike. -/
inductive CacheContent where
  | invalidJson
  | wrongStructure
  | badTimestamp (rest : List TextEntry)
  | wellFormed (timestamp : Int) (texts : List TextEntry)
deriving DecidableEq, Repr

/-- `self.cache_duration = timedelta(days=7)`, in seconds. -/
def cache_duration : Int := 7 * 86400

/-- `PerseusTextSearcher._load_cache` (lines 29-40): `file = none` models a
missing cache file; any parse failure falls into the bare `except` and
yields `none`; a parsed cache is returned only while
`now - cache_time < cache_duration` holds strictly. -/
def load_cache (file : Option CacheContent) (now : Int) : Option (List TextEntry) :=
  match file with
  | none => none
  | some .invalidJson => none
  | some .wrongStructure => none
  | some (.badTimestamp _) => none
  | some (.wellFormed cacheTime texts) =>
    if now - cacheTime < cache_duration then some texts else none

/-- `PerseusTextSearcher._save_cache` (lines 42-49): the file now holds the
current timestamp and the catalog. -/
def save_cache (now : Int) (texts : List TextEntry) : CacheContent :=
  .wellFormed now texts

/-- One vocabulary item, the dict built at lines 166-171; the source key
`lemma` is a Lean keyword, so that field is called `lemma_` here. -/
structure VocabItem where
  rank : Nat
  word : String
  lemma_ : String
  translation : String
deriving DecidableEq, Repr

/-- The body of the row loop of `scrape_vocabulary_list` (lines 157-171):
a row is its list of `td` cell texts; a row with at least two cells becomes
an item whose word and lemma are the stripped cell 0, whose translation is
the stripped cell 1 and whose rank is `idx`, the row's 1-based position
handed in by `enumerate(rows, 1)`; shorter rows produce nothing. -/
def rowToItem (p : Nat × List String) : Option VocabItem :=
  match p.2 with
  | w :: t :: _ =>
    some { rank := p.1, word := pyStrip w, lemma_ := pyStrip w,
           translation := pyStrip t }
  | _ => none

/-- The extraction loop of `PerseusVocabScraper.scrape_vocabulary_list`
(lines 155-173), applied to the data rows (the header row is already
dropped by `[1:]` before this loop). -/
def scrape_vocabulary_rows (rows : List (List String)) : List VocabItem :=
  (List.enumFrom 1 rows).filterMap rowToItem

/-- The deck state an `AnkiDeckCreator` mutates: genanki deck id, name and
the ordered notes, each note being its list of field strings. -/
structure Deck where
  deck_id : Nat
  name : String
  notes : List (List String)
deriving DecidableEq, Repr

/-- `genanki.Deck.add_note`: append one note. -/
def add_note (d : Deck) (fields : List String) : Deck :=
  { d with notes := d.notes ++ [fields] }

/-- The note fields built for one item at lines 216-221:
`[word, translation, lemma, str(rank)]` in that fixed order. -/
def noteFields (it : VocabItem) : List String :=
  [it.word, it.translation, it.lemma_, toString it.rank]

/-- `AnkiDeckCreator.add_vocabulary_items` (lines 211-223): one note per
item, appended in item order. -/
def add_vocabulary_items (d : Deck) (items : List VocabItem) : Deck :=
  items.foldl (fun dk it => add_note dk (noteFields it)) d

/-- Every variant string that occurs in some row of `variations`; a query
outside this list triggers no row of the fuzzy pass. -/
def allVariants : List String :=
  (variations.map Prod.snd).flatten

/-- Auxiliary: the empty needle is a substring of every string, as in
Python, where the empty string is `in` everything. -/
theorem strIn_empty (s : String) : strIn "" s = true := by
  unfold strIn
  cases s.data with
  | nil => rfl
  | cons b bs => rfl

/-- Auxiliary: the first component of an entry of `List.enumFrom n l` is at
least `n`. -/
theorem enumFrom_fst_le {α : Type} :
    ∀ (l : List α) (n : Nat) (p : Nat × α), p ∈ List.enumFrom n l → n ≤ p.1 := by
  intro l
  induction l with
  | nil => intro n p hp; cases hp
  | cons a as ih =>
    intro n p hp
    cases hp with
    | head => exact Nat.le_refl n
    | tail _ htl => exact Nat.le_of_succ_le (ih (n + 1) p htl)

/-- Auxiliary: the second component of an entry of `List.enumFrom n l` is an
element of `l`. -/
theorem enumFrom_snd_mem {α : Type} :
    ∀ (l : List α) (n : Nat) (p : Nat × α), p ∈ List.enumFrom n l → p.2 ∈ l := by
  intro l
  induction l with
  | nil => intro n p hp; cases hp
  | cons a as ih =>
    intro n p hp
    cases hp with
    | head => exact List.mem_cons_self a as
    | tail _ htl => exact List.mem_cons_of_mem a (ih (n + 1) p htl)

/-- C4: the cache is served while strictly younger than seven days and
reported absent from seven days on (and when the file is missing); in
particular a catalog saved at time `t` is still returned six days later and
gone eight days later. -/
theorem cache_ttl (t now : Int) (texts : List TextEntry) :
    load_cache none now = none ∧
    (now - t < cache_duration → load_cache (some (save_cache t texts)) now = some texts) ∧
    (cache_duration ≤ now - t → load_cache (some (save_cache t texts)) now = none) ∧
    load_cache (some (save_cache t texts)) (t + 6 * 86400) = some texts ∧
    load_cache (some (save_cache t texts)) (t + 8 * 86400) = none := by
  refine ⟨rfl, ?_, ?_, ?_, ?_⟩
  · intro h
    simp only [load_cache, save_cache]
    rw [if_pos h]
  · intro h
    simp only [load_cache, save_cache]
    rw [if_neg (by omega)]
  · simp only [load_cache, save_cache]
    rw [if_pos (by unfold cache_duration; omega)]
  · simp only [load_cache, save_cache]
    rw [if_neg (by unfold cache_duration; omega)]

/-- Witness for `cache_ttl` at `t = 0`, `now = 6` and `8` days. -/
theorem cache_ttl_witness :
    load_cache (some (save_cache 0 [])) (6 * 86400) = some [] ∧
    load_cache (some (save_cache 0 [])) (8 * 86400) = none :=
  ⟨(cache_ttl 0 (6 * 86400) []).2.1 (by decide),
   (cache_ttl 0 (8 * 86400) []).2.2.1 (by decide)⟩

/-- C5: any cache file content that is not fully well-formed — unparseable
JSON, an object without the expected keys, or an unparseable timestamp —
makes `_load_cache` return `None`; the bare `except` never lets an error
propagate (the embedding is a total function). -/
theorem cache_corruption_absorbed (file : Option CacheContent) (now : Int)
    (h : ∀ t texts, file ≠ some (CacheContent.wellFormed t texts)) :
    load_cache file now = none := by
  match file with
  | none => rfl
  | some .invalidJson => rfl
  | some .wrongStructure => rfl
  | some (.badTimestamp _) => rfl
  | some (.wellFormed t texts) => exact absurd rfl (h t texts)

/-- Witness for `cache_corruption_absorbed` on an unparseable file. -/
theorem cache_corruption_absorbed_witness :
    load_cache (some CacheContent.invalidJson) 12345 = none :=
  cache_corruption_absorbed (some CacheContent.invalidJson) 12345
    (by intro t texts hc; exact CacheContent.noConfusion (Option.some.inj hc))

/-- C6: an identifier starting with `urn:cts:greekLit:` is accepted
verbatim; the outcome is the `direct` constructor (so neither a candidate
list nor a no-match) and is independent of the catalog, which witnesses
that no cache load or catalog fetch takes place on this path. -/
theorem urn_bypass (identifier : String) (catalog catalog2 : List TextEntry)
    (h : strStartsWith "urn:cts:greekLit:" identifier = true) :
    mainResolve identifier catalog = MainOutcome.direct identifier ∧
    mainResolve identifier catalog = mainResolve identifier catalog2 := by
  have hne : identifier ≠ "" := by
    intro he
    rw [he] at h
    exact absurd h (by decide)
  constructor
  · simp [mainResolve, hne, h]
  · simp [mainResolve, hne, h]

/-- Witness for `urn_bypass`: a real Perseus URN, two unrelated catalogs. -/
theorem urn_bypass_witness :
    mainResolve "urn:cts:greekLit:tlg0012.tlg001.perseus-grc2" [] =
      MainOutcome.direct "urn:cts:greekLit:tlg0012.tlg001.perseus-grc2" ∧
    mainResolve "urn:cts:greekLit:tlg0012.tlg001.perseus-grc2" [] =
      mainResolve "urn:cts:greekLit:tlg0012.tlg001.perseus-grc2"
        [{ author := "Homer", title := "Iliad", urn := "x", url := "y" }] :=
  urn_bypass "urn:cts:greekLit:tlg0012.tlg001.perseus-grc2" []
    [{ author := "Homer", title := "Iliad", urn := "x", url := "y" }] (by decide)

/-- C10: the empty query survives lowercasing unchanged, the exact pass
accepts every entry because the empty string is a substring of every
title, so searching any non-empty catalog returns the whole catalog in
order — never a no-match. -/
theorem empty_query_matches_all (texts : List TextEntry) (h : texts ≠ []) :
    search_texts texts "" = texts ∧ resolveOutcome texts "" ≠ Resolution.noMatch := by
  have hexact : exactMatches texts (lowerStr "") = texts := by
    apply List.filter_eq_self.mpr
    intro t _
    rw [show lowerStr "" = "" from rfl, strIn_empty]
    rfl
  have hsearch : search_texts texts "" = texts := by
    unfold search_texts searchTextsWith
    simp only [hexact]
    rw [if_neg]
    simp [List.isEmpty_iff, h]
  refine ⟨hsearch, ?_⟩
  unfold resolveOutcome
  rw [hsearch]
  match texts, h with
  | [t], _ => simp
  | t1 :: t2 :: rest, _ => simp

/-- Witness for `empty_query_matches_all` on a two-entry catalog. -/
theorem empty_query_matches_all_witness :
    search_texts
      [{ author := "Homer", title := "Iliad", urn := "u1", url := "w1" },
       { author := "Homer", title := "Odyssey", urn := "u2", url := "w2" }] "" =
      [{ author := "Homer", title := "Iliad", urn := "u1", url := "w1" },
       { author := "Homer", title := "Odyssey", urn := "u2", url := "w2" }] ∧
    resolveOutcome
      [{ author := "Homer", title := "Iliad", urn := "u1", url := "w1" },
       { author := "Homer", title := "Odyssey", urn := "u2", url := "w2" }] "" ≠
      Resolution.noMatch :=
  empty_query_matches_all
    [{ author := "Homer", title := "Iliad", urn := "u1", url := "w1" },
     { author := "Homer", title := "Odyssey", urn := "u2", url := "w2" }] (by decide)

/-- Auxiliary: mapping the rank over the items built from an enumerated row
list gives exactly the first components of the rows having at least two
cells — the skipped short rows still advanced the counter. -/
theorem filterMap_rowToItem_rank :
    ∀ l : List (Nat × List String),
      (l.filterMap rowToItem).map VocabItem.rank =
        (l.filter fun p => decide (2 ≤ p.2.length)).map Prod.fst := by
  intro l
  induction l with
  | nil => rfl
  | cons p ps ih =>
    rcases p with ⟨n, cells⟩
    cases cells with
    | nil => simpa [rowToItem, List.filterMap_cons, List.filter_cons] using ih
    | cons w rest =>
      cases rest with
      | nil => simpa [rowToItem, List.filterMap_cons, List.filter_cons] using ih
      | cons tr rest2 =>
        simpa [rowToItem, List.filterMap_cons, List.filter_cons] using ih

/-- C1 counterexample: with a one-cell row between two good rows the
extractor emits ranks `[1, 3]`, not `[1, 2]` — the skipped row consumed a
rank, because `enumerate(rows, 1)` numbers all rows, not the emitted
items. -/
theorem scrape_rank_gap_cex :
    scrape_vocabulary_rows [["a", "b"], ["x"], ["c", "d"]] =
      [{ rank := 1, word := "a", lemma_ := "a", translation := "b" },
       { rank := 3, word := "c", lemma_ := "c", translation := "d" }] ∧
    (scrape_vocabulary_rows [["a", "b"], ["x"], ["c", "d"]]).map VocabItem.rank ≠
      [1, 2] := by
  constructor
  · rfl
  · decide

/-- C1 (amended): an emitted item's rank is the 1-based position of its row
among all data rows, malformed rows included, so skipped rows leave gaps;
only when every row has at least two cells are the ranks exactly `1..N` in
source order. -/
theorem scrape_rank_positional (rows : List (List String)) :
    (scrape_vocabulary_rows rows).map VocabItem.rank =
      ((List.enumFrom 1 rows).filter fun p => decide (2 ≤ p.2.length)).map Prod.fst ∧
    ((∀ r ∈ rows, 2 ≤ r.length) →
      (scrape_vocabulary_rows rows).map VocabItem.rank = List.range' 1 rows.length) := by
  refine ⟨filterMap_rowToItem_rank (List.enumFrom 1 rows), ?_⟩
  intro hall
  rw [show scrape_vocabulary_rows rows = (List.enumFrom 1 rows).filterMap rowToItem
      from rfl,
    filterMap_rowToItem_rank (List.enumFrom 1 rows)]
  have hfull : (List.enumFrom 1 rows).filter (fun p => decide (2 ≤ p.2.length)) =
      List.enumFrom 1 rows := by
    apply List.filter_eq_self.mpr
    intro p hp
    exact decide_eq_true (hall p.2 (enumFrom_snd_mem rows 1 p hp))
  rw [hfull, List.enumFrom_map_fst]

/-- Witness for `scrape_rank_positional` on two well-formed rows. -/
theorem scrape_rank_positional_witness :
    (scrape_vocabulary_rows [["a", "b"], ["c", "d"]]).map VocabItem.rank =
      List.range' 1 2 :=
  (scrape_rank_positional [["a", "b"], ["c", "d"]]).2 (by decide)

/-- C9 counterexample: a row whose first cell is empty still becomes an
item, with `word = ""` — extraction does not guarantee a non-empty word. -/
theorem scrape_empty_word_cex :
    scrape_vocabulary_rows [["", "some gloss"]] =
      [{ rank := 1, word := "", lemma_ := "", translation := "some gloss" }] ∧
    ¬ (∀ it ∈ scrape_vocabulary_rows [["", "some gloss"]], it.word ≠ "") := by
  constructor
  · rfl
  · decide

/-- C9 (amended): every item produced by extraction has a positive rank and
a lemma identical to its word; the word and the translation may both be
empty (the code never checks the cell contents). -/
theorem scrape_item_invariants (rows : List (List String)) (it : VocabItem)
    (h : it ∈ scrape_vocabulary_rows rows) :
    1 ≤ it.rank ∧ it.lemma_ = it.word := by
  unfold scrape_vocabulary_rows at h
  rcases List.mem_filterMap.mp h with ⟨p, hp, hpi⟩
  have hn : 1 ≤ p.1 := enumFrom_fst_le rows 1 p hp
  rcases p with ⟨n, cells⟩
  cases cells with
  | nil => simp [rowToItem] at hpi
  | cons w rest =>
    cases rest with
    | nil => simp [rowToItem] at hpi
    | cons tr rest2 =>
      simp only [rowToItem, Option.some.injEq] at hpi
      subst hpi
      exact ⟨hn, rfl⟩

/-- Witness for `scrape_item_invariants` on a concrete row. -/
theorem scrape_item_invariants_witness :
    1 ≤ ({ rank := 1, word := "a", lemma_ := "a", translation := "b" } : VocabItem).rank ∧
    ({ rank := 1, word := "a", lemma_ := "a", translation := "b" } : VocabItem).lemma_ =
      ({ rank := 1, word := "a", lemma_ := "a", translation := "b" } : VocabItem).word :=
  scrape_item_invariants [["a", "b"]]
    { rank := 1, word := "a", lemma_ := "a", translation := "b" } (by decide)

/-- C8: building a deck from a list of items whose lemma equals their word
appends exactly one note per item, in item order, with the fixed field
layout `[word, translation, word, rank rendered in decimal]`. -/
theorem deck_note_shape (d : Deck) (items : List VocabItem)
    (h : ∀ it ∈ items, it.lemma_ = it.word) :
    (add_vocabulary_items d items).notes =
      d.notes ++ items.map
        (fun it => [it.word, it.translation, it.word, toString it.rank]) ∧
    (add_vocabulary_items d items).notes.length = d.notes.length + items.length := by
  have main : ∀ (l : List VocabItem) (dk : Deck), (∀ it ∈ l, it.lemma_ = it.word) →
      (add_vocabulary_items dk l).notes = dk.notes ++ l.map
        (fun it => [it.word, it.translation, it.word, toString it.rank]) := by
    intro l
    induction l with
    | nil => intro dk _; simp [add_vocabulary_items]
    | cons it its ih =>
      intro dk hall
      rw [show add_vocabulary_items dk (it :: its) =
          add_vocabulary_items (add_note dk (noteFields it)) its from rfl,
        ih _ (fun x hx => hall x (List.mem_cons_of_mem _ hx))]
      simp [add_note, noteFields, hall it (List.mem_cons_self _ _)]
  have h1 := main items d h
  refine ⟨h1, ?_⟩
  rw [h1]
  simp

/-- Witness for `deck_note_shape`: three items as in the spec's deck-shape
example yield exactly three notes with ranks rendered as "1", "2", "3". -/
theorem deck_note_shape_witness :
    (add_vocabulary_items { deck_id := 7, name := "Test", notes := [] }
      [{ rank := 1, word := "wa", lemma_ := "wa", translation := "ta" },
       { rank := 2, word := "wb", lemma_ := "wb", translation := "tb" },
       { rank := 3, word := "wc", lemma_ := "wc", translation := "tc" }]).notes =
      [["wa", "ta", "wa", "1"], ["wb", "tb", "wb", "2"], ["wc", "tc", "wc", "3"]] ∧
    (add_vocabulary_items { deck_id := 7, name := "Test", notes := [] }
      [{ rank := 1, word := "wa", lemma_ := "wa", translation := "ta" },
       { rank := 2, word := "wb", lemma_ := "wb", translation := "tb" },
       { rank := 3, word := "wc", lemma_ := "wc", translation := "tc" }]).notes.length =
      0 + 3 :=
  deck_note_shape { deck_id := 7, name := "Test", notes := [] }
    [{ rank := 1, word := "wa", lemma_ := "wa", translation := "ta" },
     { rank := 2, word := "wb", lemma_ := "wb", translation := "tb" },
     { rank := 3, word := "wc", lemma_ := "wc", translation := "tc" }] (by decide)

/-- Auxiliary: when no row of the alias table lists the query among its
variants, the fuzzy fold leaves its accumulator untouched. -/
theorem fuzzy_foldl_fixed (texts : List TextEntry) (q : String) :
    ∀ (tbl : List (String × List String)) (acc : List TextEntry),
      (∀ kv ∈ tbl, kv.2.contains q = false) →
      tbl.foldl
        (fun acc kv =>
          if kv.2.contains q then acc ++ texts.filter (fuzzyHit kv.1 kv.2)
          else acc) acc = acc := by
  intro tbl
  induction tbl with
  | nil => intro acc _; rfl
  | cons kv kvs ih =>
    intro acc hall
    have hkv : kv.2.contains q = false := hall kv (List.mem_cons_self _ _)
    simp only [List.foldl_cons, hkv, if_false, Bool.false_eq_true]
    exact ih acc fun x hx => hall x (List.mem_cons_of_mem _ hx)

/-- Auxiliary: a query listed among no variants produces an empty fuzzy
result. -/
theorem fuzzyMatchesWith_eq_nil (texts : List TextEntry) (q : String)
    (h : ∀ kv ∈ variations, q ∉ kv.2) :
    fuzzyMatchesWith variations texts q = [] := by
  apply fuzzy_foldl_fixed texts q variations []
  intro kv hkv
  cases hc : kv.2.contains q with
  | false => rfl
  | true => exact absurd (List.elem_iff.mp hc) (h kv hkv)

/-- Auxiliary: when the query is one of the variants of a row of the
hardcoded table, the fuzzy pass is exactly one filter over the catalog,
with that row's key and variants; this pins down both the membership and
the catalog order of the fuzzy result.  Proved by running the fold on each
of the sixteen variant strings of the table. -/
theorem fuzzyMatchesWith_eq_filter (texts : List TextEntry) (key : String)
    (vs : List String) (q : String) (hkv : (key, vs) ∈ variations)
    (hq : q ∈ vs) :
    fuzzyMatchesWith variations texts q = texts.filter (fuzzyHit key vs) := by
  simp only [variations, List.mem_cons, List.not_mem_nil, or_false,
    Prod.mk.injEq] at hkv
  rcases hkv with hkv | hkv | hkv | hkv | hkv | hkv | hkv | hkv <;>
    obtain ⟨rfl, rfl⟩ := hkv
  · simp only [List.mem_cons, List.not_mem_nil, or_false] at hq
    rcases hq with rfl | rfl
    · rfl
    · rfl
  · simp only [List.mem_cons, List.not_mem_nil, or_false] at hq
    rcases hq with rfl | rfl
    · rfl
    · rfl
  · simp only [List.mem_cons, List.not_mem_nil, or_false] at hq
    rcases hq with rfl | rfl
    · rfl
    · rfl
  · simp only [List.mem_cons, List.not_mem_nil, or_false] at hq
    rcases hq with rfl | rfl
    · rfl
    · rfl
  · simp only [List.mem_cons, List.not_mem_nil, or_false] at hq
    rcases hq with rfl | rfl | rfl
    · rfl
    · rfl
    · rfl
  · simp only [List.mem_cons, List.not_mem_nil, or_false] at hq
    rcases hq with rfl | rfl
    · rfl
    · rfl
  · simp only [List.mem_cons, List.not_mem_nil, or_false] at hq
    rcases hq with rfl | rfl
    · rfl
    · rfl
  · simp only [List.mem_cons, List.not_mem_nil, or_false] at hq
    rcases hq with rfl | rfl
    · rfl
    · rfl

/-- Auxiliary: whichever way the fuzzy pass goes on the hardcoded table,
its result is a sublist of the catalog, hence in catalog order. -/
theorem fuzzyMatchesWith_sublist (texts : List TextEntry) (q : String) :
    List.Sublist (fuzzyMatchesWith variations texts q) texts := by
  by_cases hq : ∃ kv, kv ∈ variations ∧ q ∈ kv.2
  · rcases hq with ⟨⟨key, vs⟩, hkv, hmem⟩
    rw [fuzzyMatchesWith_eq_filter texts key vs q hkv hmem]
    exact List.filter_sublist _
  · push_neg at hq
    rw [fuzzyMatchesWith_eq_nil texts q hq]
    exact List.nil_sublist _

/-- Auxiliary: whatever `search_texts` returns is a sublist of the catalog,
so candidates always come back in catalog order. -/
theorem search_texts_sublist (texts : List TextEntry) (query : String) :
    List.Sublist (search_texts texts query) texts := by
  unfold search_texts searchTextsWith
  by_cases he : (exactMatches texts (lowerStr query)).isEmpty
  · simp only [he, if_true]
    exact fuzzyMatchesWith_sublist texts (lowerStr query)
  · simp only [he, if_false, Bool.false_eq_true]
    exact List.filter_sublist _

/-- C2: on any non-empty catalog, classifying the search result gives
exactly one of the three outcomes — no match, a single resolved text, or a
candidate list of at least two entries that is a sublist of the catalog and
hence in catalog order.  The embedded search and classification are total
functions, so no exception is possible on a well-formed catalog. -/
theorem resolution_totality (texts : List TextEntry) (query : String)
    (_h : texts ≠ []) :
    (search_texts texts query = [] ∧
      resolveOutcome texts query = Resolution.noMatch) ∨
    (∃ t, search_texts texts query = [t] ∧
      resolveOutcome texts query = Resolution.resolved t) ∨
    (∃ ts, search_texts texts query = ts ∧
      resolveOutcome texts query = Resolution.candidates ts ∧
      2 ≤ ts.length ∧ List.Sublist ts texts) := by
  have hsub := search_texts_sublist texts query
  cases hs : search_texts texts query with
  | nil => exact Or.inl ⟨rfl, by simp [resolveOutcome, hs]⟩
  | cons t1 rest =>
    cases rest with
    | nil => exact Or.inr (Or.inl ⟨t1, rfl, by simp [resolveOutcome, hs]⟩)
    | cons t2 rest2 =>
      refine Or.inr (Or.inr ⟨t1 :: t2 :: rest2, rfl, by simp [resolveOutcome, hs],
        ?_, ?_⟩)
      · simp only [List.length_cons]
        omega
      · rw [hs] at hsub
        exact hsub

/-- Witness for `resolution_totality`: the two-entry Homer catalog of the
spec's end-to-end example with query "homer" (which lands in the candidate
branch). -/
theorem resolution_totality_witness :
    (search_texts
        [{ author := "Homer", title := "Iliad", urn := "u1", url := "w1" },
         { author := "Homer", title := "Odyssey", urn := "u2", url := "w2" }]
        "homer" = [] ∧
      resolveOutcome
        [{ author := "Homer", title := "Iliad", urn := "u1", url := "w1" },
         { author := "Homer", title := "Odyssey", urn := "u2", url := "w2" }]
        "homer" = Resolution.noMatch) ∨
    (∃ t, search_texts
        [{ author := "Homer", title := "Iliad", urn := "u1", url := "w1" },
         { author := "Homer", title := "Odyssey", urn := "u2", url := "w2" }]
        "homer" = [t] ∧
      resolveOutcome
        [{ author := "Homer", title := "Iliad", urn := "u1", url := "w1" },
         { author := "Homer", title := "Odyssey", urn := "u2", url := "w2" }]
        "homer" = Resolution.resolved t) ∨
    (∃ ts, search_texts
        [{ author := "Homer", title := "Iliad", urn := "u1", url := "w1" },
         { author := "Homer", title := "Odyssey", urn := "u2", url := "w2" }]
        "homer" = ts ∧
      resolveOutcome
        [{ author := "Homer", title := "Iliad", urn := "u1", url := "w1" },
         { author := "Homer", title := "Odyssey", urn := "u2", url := "w2" }]
        "homer" = Resolution.candidates ts ∧
      2 ≤ ts.length ∧ List.Sublist ts
        [{ author := "Homer", title := "Iliad", urn := "u1", url := "w1" },
         { author := "Homer", title := "Odyssey", urn := "u2", url := "w2" }]) :=
  resolution_totality
    [{ author := "Homer", title := "Iliad", urn := "u1", url := "w1" },
     { author := "Homer", title := "Odyssey", urn := "u2", url := "w2" }]
    "homer" (by decide)

/-- C3: whenever the exact case-insensitive substring pass finds at least
one candidate, the search returns exactly that candidate list, whatever the
alias table holds — the fuzzy pass is never consulted. -/
theorem exact_match_precedence (texts : List TextEntry) (query : String)
    (h : exactMatches texts (lowerStr query) ≠ []) :
    (∀ tbl, searchTextsWith tbl texts query = exactMatches texts (lowerStr query)) ∧
    search_texts texts query = exactMatches texts (lowerStr query) := by
  have hne : (exactMatches texts (lowerStr query)).isEmpty = false := by
    cases hc : exactMatches texts (lowerStr query) with
    | nil => exact absurd hc h
    | cons a l => rfl
  constructor
  · intro tbl
    unfold searchTextsWith
    simp only [hne, if_false, Bool.false_eq_true]
  · unfold search_texts searchTextsWith
    simp only [hne, if_false, Bool.false_eq_true]

/-- Witness for `exact_match_precedence`: "homer" is both an exact hit on
the author and a fuzzy alias key, and the exact hit wins for every table,
in particular for the empty one. -/
theorem exact_match_precedence_witness :
    searchTextsWith []
      [{ author := "Homer", title := "Iliad", urn := "u1", url := "w1" }] "homer" =
      exactMatches
        [{ author := "Homer", title := "Iliad", urn := "u1", url := "w1" }]
        (lowerStr "homer") ∧
    search_texts
      [{ author := "Homer", title := "Iliad", urn := "u1", url := "w1" }] "homer" =
      exactMatches
        [{ author := "Homer", title := "Iliad", urn := "u1", url := "w1" }]
        (lowerStr "homer") :=
  ⟨(exact_match_precedence
      [{ author := "Homer", title := "Iliad", urn := "u1", url := "w1" }]
      "homer" (by decide)).1 [],
   (exact_match_precedence
      [{ author := "Homer", title := "Iliad", urn := "u1", url := "w1" }]
      "homer" (by decide)).2⟩

/-- C7: when the exact pass is empty, a query whose lowercased form is a
variant of some alias-table row makes the search return exactly the catalog
entries hit by that row's key or variants (case-insensitive substring on
title or author); a query that is a variant of no row yields the empty
result, i.e. a no-match. -/
theorem fuzzy_fallback_semantics (texts : List TextEntry) (query : String)
    (hempty : exactMatches texts (lowerStr query) = []) :
    (∀ key vs, (key, vs) ∈ variations → lowerStr query ∈ vs →
      search_texts texts query = texts.filter (fuzzyHit key vs)) ∧
    ((∀ kv ∈ variations, lowerStr query ∉ kv.2) →
      search_texts texts query = []) := by
  have hsearch : search_texts texts query =
      fuzzyMatchesWith variations texts (lowerStr query) := by
    unfold search_texts searchTextsWith
    simp only [hempty, List.isEmpty_nil, if_true]
  constructor
  · intro key vs hkv hq
    rw [hsearch]
    exact fuzzyMatchesWith_eq_filter texts key vs (lowerStr query) hkv hq
  · intro hnone
    rw [hsearch]
    exact fuzzyMatchesWith_eq_nil texts (lowerStr query) hnone

/-- Witness for `fuzzy_fallback_semantics`: query "Ilias" misses the Iliad
entry exactly but its lowercased form is a variant of the "iliad" row, so
the search returns the entries hit by that row. -/
theorem fuzzy_fallback_semantics_witness :
    search_texts
      [{ author := "Homer", title := "Iliad", urn := "u1", url := "w1" }]
      "Ilias" =
      List.filter (fuzzyHit "iliad" ["iliad", "ilias"])
        [{ author := "Homer", title := "Iliad", urn := "u1", url := "w1" }] :=
  (fuzzy_fallback_semantics
      [{ author := "Homer", title := "Iliad", urn := "u1", url := "w1" }]
      "Ilias" (by decide)).1 "iliad" ["iliad", "ilias"] (by decide) (by decide)
